import Mathlib

/-!
Shallow embedding of the digital-modulation waveform generator in `src/main.py`
(`page_visualizer`, lines 199-263), together with theorems checking the
natural-language specification against it.

Floating-point arithmetic is idealised: sample timestamps are exact rationals
(all time values produced by `np.linspace` from rational parameters are
rational), and waveform amplitudes are exact reals.  The numpy global random
generator is modelled as an explicit sequence of Gaussian draws `g : ℕ → ℝ`
(the sequence a seeded generator produces).
-/

open Real

namespace Dct

/-- The five modulation schemes of the `mod_type` selectbox (line 199). -/
inductive ModType
  | ASK | BPSK | QPSK | FSK | DPSK
deriving DecidableEq

/-- The sidebar simulation parameters (lines 199-210).  `fDelta` is the FSK
frequency-separation slider; for other schemes the code sets it to `None` and
never reads it, so it is carried as a plain real here. -/
structure Params where
  modType : ModType
  bitRate : ℚ
  A : ℝ
  fc : ℝ
  fs : ℕ
  snrDb : ℚ
  fDelta : ℝ

/-- Line 213: `bits = [b for b in bit_input if b in ("0", "1")]`. -/
def parseBits (s : String) : List Char :=
  s.toList.filter (fun b => b == '0' || b == '1')

/-- Line 220: `np.linspace(0, T, N)` with default `endpoint=True`:
`N` evenly spaced points from `0` to `T` inclusive, the `m`-th being
`m * T / (N - 1)`; for `N ≤ 1` numpy returns `[0.]` (or the empty array). -/
def linspace0 (T : ℚ) (N : ℕ) (m : ℕ) : ℚ :=
  if N ≤ 1 then 0 else (m : ℚ) * T / ((N - 1 : ℕ) : ℚ)

/-- Lines 218-220: `Tb = 1/bit_rate`, `T = Tb*len(bits)`,
`t = np.linspace(0, T, int(fs*len(bits)))`. -/
def timeGridOf (p : Params) (bits : List Char) : ℕ → ℚ :=
  linspace0 ((1 / p.bitRate) * bits.length) (p.fs * bits.length)

/-- The boolean mask of window `i` (lines 226, 232, 241, 248, 254):
`idx = (t >= i*Tb) & (t < (i+1)*Tb)`. -/
def inWindow (Tb : ℚ) (t : ℕ → ℚ) (i m : ℕ) : Prop :=
  (i : ℚ) * Tb ≤ t m ∧ t m < ((i : ℚ) + 1) * Tb

instance instDecInWindow (Tb : ℚ) (t : ℕ → ℚ) (i m : ℕ) :
    Decidable (inWindow Tb t i m) := by
  unfold inWindow
  infer_instance

/-- Sequential masked assignment: each loop iteration executes
`signal[idx] = value`, i.e. overwrites the samples where window `i`'s mask
holds and leaves the rest unchanged. -/
def writeWindows (mask : ℕ → ℕ → Prop) [∀ i m, Decidable (mask i m)] :
    List (ℕ × (ℕ → ℝ)) → (ℕ → ℝ) → ℕ → ℝ
  | [], sig => sig
  | iv :: rest, sig =>
      writeWindows mask rest (fun m => if mask iv.1 m then iv.2 m else sig m)

/-- ASK window value (lines 227-228):
`signal[idx] = A * sin(2*pi*fc*t[idx]) if b == "1" else 0`. -/
noncomputable def askVal (A fc : ℝ) (t : ℕ → ℚ) (b : Char) : ℕ → ℝ :=
  fun m => if b = '1' then A * Real.sin (2 * π * fc * ((t m : ℚ) : ℝ)) else 0

/-- The (window index, value) list produced by the ASK loop (lines 225-228). -/
noncomputable def askWindows (A fc : ℝ) (t : ℕ → ℚ) :
    List Char → ℕ → List (ℕ × (ℕ → ℝ))
  | [], _ => []
  | b :: rest, i => (i, askVal A fc t b) :: askWindows A fc t rest (i + 1)

/-- BPSK window value (lines 233-234): `phase = 0 if b == "0" else pi`;
`signal[idx] = A * sin(2*pi*fc*t[idx] + phase)`. -/
noncomputable def bpskVal (A fc : ℝ) (t : ℕ → ℚ) (b : Char) : ℕ → ℝ :=
  fun m =>
    A * Real.sin (2 * π * fc * ((t m : ℚ) : ℝ) + (if b = '0' then 0 else π))

/-- The (window index, value) list produced by the BPSK loop (lines 231-234). -/
noncomputable def bpskWindows (A fc : ℝ) (t : ℕ → ℚ) :
    List Char → ℕ → List (ℕ × (ℕ → ℝ))
  | [], _ => []
  | b :: rest, i => (i, bpskVal A fc t b) :: bpskWindows A fc t rest (i + 1)

/-- Lines 237-238: QPSK pads an odd-length bit list with a trailing `"0"`. -/
def padEven (bits : List Char) : List Char :=
  if bits.length % 2 ≠ 0 then bits ++ ['0'] else bits

/-- Line 239: `mapping = {"00": pi/4, "01": 3*pi/4, "11": 5*pi/4, "10": 7*pi/4}`,
as a total function on the binary pair. -/
noncomputable def qpskPhase (b0 b1 : Char) : ℝ :=
  if b0 = '0' then (if b1 = '0' then π / 4 else 3 * π / 4)
  else (if b1 = '1' then 5 * π / 4 else 7 * π / 4)

/-- QPSK window value (lines 242-243):
`signal[idx] = A * sin(2*pi*fc*t[idx] + phase)`. -/
noncomputable def qpskVal (A fc : ℝ) (t : ℕ → ℚ) (b0 b1 : Char) : ℕ → ℝ :=
  fun m => A * Real.sin (2 * π * fc * ((t m : ℚ) : ℝ) + qpskPhase b0 b1)

/-- The (window index, value) list produced by the QPSK loop (lines 240-243):
iteration `i = 0, 2, 4, ...` uses window `j = i/2` and the bit pair
`bits[i:i+2]`. -/
noncomputable def qpskWindows (A fc : ℝ) (t : ℕ → ℚ) :
    List Char → ℕ → List (ℕ × (ℕ → ℝ))
  | b0 :: b1 :: rest, j =>
      (j, qpskVal A fc t b0 b1) :: qpskWindows A fc t rest (j + 1)
  | _, _ => []

/-- FSK window value (line 249):
`signal[idx] = A * sin(2*pi*(f1 if b == "0" else f2)*t[idx])`. -/
noncomputable def fskVal (A f1 f2 : ℝ) (t : ℕ → ℚ) (b : Char) : ℕ → ℝ :=
  fun m =>
    A * Real.sin (2 * π * (if b = '0' then f1 else f2) * ((t m : ℚ) : ℝ))

/-- The (window index, value) list produced by the FSK loop (lines 247-249). -/
noncomputable def fskWindows (A f1 f2 : ℝ) (t : ℕ → ℚ) :
    List Char → ℕ → List (ℕ × (ℕ → ℝ))
  | [], _ => []
  | b :: rest, i => (i, fskVal A f1 f2 t b) :: fskWindows A f1 f2 t rest (i + 1)

/-- Python's float modulo `x % y` (for `y > 0`): `x - y * floor(x / y)`. -/
noncomputable def rmod (x y : ℝ) : ℝ := x - y * (⌊x / y⌋ : ℤ)

/-- The successive values of `prev_phase` in the DPSK loop (lines 252-256):
the phase used in window `k` is the value of `prev_phase` after processing
bit `k` (`prev_phase = (prev_phase + pi) % (2*pi)` on a `'1'`, unchanged on a
`'0'`). -/
noncomputable def dpskPhases : List Char → ℝ → List ℝ
  | [], _ => []
  | b :: rest, prev =>
      (if b = '1' then rmod (prev + π) (2 * π) else prev) ::
        dpskPhases rest (if b = '1' then rmod (prev + π) (2 * π) else prev)

/-- DPSK window value (line 257):
`signal[idx] = A * sin(2*pi*fc*t[idx] + prev_phase)`. -/
noncomputable def dpskVal (A fc : ℝ) (t : ℕ → ℚ) (ph : ℝ) : ℕ → ℝ :=
  fun m => A * Real.sin (2 * π * fc * ((t m : ℚ) : ℝ) + ph)

/-- The (window index, value) list produced by the DPSK loop (lines 251-257),
carrying `prev_phase` sequentially. -/
noncomputable def dpskWindows (A fc : ℝ) (t : ℕ → ℚ) :
    List Char → ℕ → ℝ → List (ℕ × (ℕ → ℝ))
  | [], _, _ => []
  | b :: rest, i, prev =>
      (i, dpskVal A fc t (if b = '1' then rmod (prev + π) (2 * π) else prev)) ::
        dpskWindows A fc t rest (i + 1)
          (if b = '1' then rmod (prev + π) (2 * π) else prev)

/-- Lines 218-257: the transmitted waveform.  `signal = np.zeros_like(t)`
(line 221) is the initial all-zero array; each scheme's loop then overwrites
the masked regions.  For QPSK the time grid has already been sized from the
unpadded bit count (line 220) when the padding happens (lines 237-238). -/
noncomputable def modulate (p : Params) (bits : List Char) : ℕ → ℝ :=
  let Tb : ℚ := 1 / p.bitRate
  let t : ℕ → ℚ := timeGridOf p bits
  match p.modType with
  | ModType.ASK =>
      writeWindows (inWindow Tb t) (askWindows p.A p.fc t bits 0) (fun _ => 0)
  | ModType.BPSK =>
      writeWindows (inWindow Tb t) (bpskWindows p.A p.fc t bits 0) (fun _ => 0)
  | ModType.QPSK =>
      writeWindows (inWindow Tb t) (qpskWindows p.A p.fc t (padEven bits) 0)
        (fun _ => 0)
  | ModType.FSK =>
      writeWindows (inWindow Tb t)
        (fskWindows p.A (p.fc - p.fDelta / 2) (p.fc + p.fDelta / 2) t bits 0)
        (fun _ => 0)
  | ModType.DPSK =>
      writeWindows (inWindow Tb t) (dpskWindows p.A p.fc t bits 0 0)
        (fun _ => 0)

/-- Line 260: `sig_power = np.mean(signal ** 2)` over the `N` samples. -/
noncomputable def sigPower (N : ℕ) (sig : ℕ → ℝ) : ℝ :=
  (∑ m ∈ Finset.range N, sig m ^ 2) / N

/-- Line 261: `noise_power = sig_power / (10 ** (snr_db / 10))`. -/
noncomputable def noisePower (sp : ℝ) (snrDb : ℚ) : ℝ :=
  sp / Real.rpow 10 ((snrDb : ℝ) / 10)

/-- Lines 262-263: `noise = sqrt(noise_power) * randn(len(signal))`;
`rx = signal + noise`, with the Gaussian draws supplied by `g`. -/
noncomputable def rxOf (p : Params) (bits : List Char) (g : ℕ → ℝ) : ℕ → ℝ :=
  fun m =>
    modulate p bits m +
      Real.sqrt (noisePower (sigPower (p.fs * bits.length) (modulate p bits))
        p.snrDb) * g m

/-- The arrays produced by one synthesis run: the sample count
`len(t) = int(fs * len(bits))`, the time grid `t`, the transmitted waveform
`signal` and the received waveform `rx`. -/
structure Output where
  numSamples : ℕ
  timeGrid : ℕ → ℚ
  tx : ℕ → ℝ
  rx : ℕ → ℝ

/-- The whole pipeline of `page_visualizer` (lines 213-263): parse the bit
stream, abort with a validation error (`st.error` + `return`, lines 214-216)
when no binary character remains, otherwise build the grid, the transmitted
waveform and the noisy received waveform. -/
noncomputable def synthesize (s : String) (p : Params) (g : ℕ → ℝ) :
    Option Output :=
  let bits := parseBits s
  if bits = [] then none
  else
    some ⟨p.fs * bits.length, timeGridOf p bits, modulate p bits,
      rxOf p bits g⟩

/-- Modelled from the spec: the Constellation Mapper (spec section 4.4) belongs
to variants of this repository's script that are not present under `src/`
(only `src/main.py` is, which has no constellation code); its point sets are
taken from the spec's literal tables, parameterised only by the scheme and its
parameters, never by the bit stream. -/
noncomputable def constellation (p : Params) : List (ℝ × ℝ) :=
  match p.modType with
  | ModType.ASK => [(0, 0), (p.A, 0)]
  | ModType.BPSK => [(p.A, 0), (-p.A, 0)]
  | ModType.QPSK =>
      [(Real.cos (π / 4), Real.sin (π / 4)),
       (Real.cos (3 * π / 4), Real.sin (3 * π / 4)),
       (Real.cos (5 * π / 4), Real.sin (5 * π / 4)),
       (Real.cos (7 * π / 4), Real.sin (7 * π / 4))]
  | ModType.FSK => [(p.fc - p.fDelta / 2, 0), (p.fc + p.fDelta / 2, 0)]
  | ModType.DPSK => [(Real.cos 0, Real.sin 0), (Real.cos π, Real.sin π)]

/-! ### Lemmas about sequential masked writes -/

lemma writeWindows_not_mem (mask : ℕ → ℕ → Prop) [∀ i m, Decidable (mask i m)]
    (ws : List (ℕ × (ℕ → ℝ))) (sig : ℕ → ℝ) (m : ℕ)
    (h : ∀ iv ∈ ws, ¬ mask iv.1 m) :
    writeWindows mask ws sig m = sig m := by
  induction ws generalizing sig with
  | nil => rfl
  | cons iv rest ih =>
      rw [writeWindows, ih _ (fun p hp => h p (List.mem_cons_of_mem _ hp))]
      exact if_neg (h iv (List.mem_cons_self _ _))

lemma writeWindows_eq_val (mask : ℕ → ℕ → Prop) [∀ i m, Decidable (mask i m)]
    (ws : List (ℕ × (ℕ → ℝ))) (sig : ℕ → ℝ) (m : ℕ) (target : ℝ)
    (hval : ∀ iv ∈ ws, mask iv.1 m → iv.2 m = target)
    (hex : ∃ iv ∈ ws, mask iv.1 m) :
    writeWindows mask ws sig m = target := by
  induction ws generalizing sig with
  | nil => simp at hex
  | cons q rest ih =>
      rw [writeWindows]
      by_cases hr : ∃ iv ∈ rest, mask iv.1 m
      · exact ih _ (fun p hp => hval p (List.mem_cons_of_mem _ hp)) hr
      · push_neg at hr
        rw [writeWindows_not_mem _ _ _ _ hr]
        obtain ⟨iv, hmem, hmask⟩ := hex
        rcases List.mem_cons.1 hmem with rfl | hmem'
        · rw [if_pos hmask]
          exact hval iv (List.mem_cons_self _ _) hmask
        · exact absurd hmask (hr iv hmem')

lemma writeWindows_zero (mask : ℕ → ℕ → Prop) [∀ i m, Decidable (mask i m)]
    (ws : List (ℕ × (ℕ → ℝ))) (m : ℕ)
    (hval : ∀ iv ∈ ws, mask iv.1 m → iv.2 m = 0) :
    writeWindows mask ws (fun _ => 0) m = 0 := by
  by_cases hex : ∃ iv ∈ ws, mask iv.1 m
  · exact writeWindows_eq_val mask ws _ m 0 hval hex
  · push_neg at hex
    exact writeWindows_not_mem mask ws _ m hex

/-! ### Lemmas about the window masks and the time grid -/

/-- Two windows never claim the same sample: the masks are right-open
intervals `[i*Tb, (i+1)*Tb)`, pairwise disjoint once `Tb > 0`. -/
lemma inWindow_disjoint {Tb : ℚ} (hTb : 0 < Tb) {t : ℕ → ℚ} {i j m : ℕ}
    (hi : inWindow Tb t i m) (hj : inWindow Tb t j m) : i = j := by
  by_contra hne
  rcases Nat.lt_or_ge i j with h | h
  · have h1 : ((i : ℚ) + 1) * Tb ≤ (j : ℚ) * Tb := by
      have : ((i : ℚ) + 1) ≤ (j : ℚ) := by exact_mod_cast h
      exact mul_le_mul_of_nonneg_right this hTb.le
    have := hi.2.trans_le (h1.trans hj.1)
    exact lt_irrefl _ this
  · rcases Nat.lt_or_ge j i with h' | h'
    · have h1 : ((j : ℚ) + 1) * Tb ≤ (i : ℚ) * Tb := by
        have : ((j : ℚ) + 1) ≤ (i : ℚ) := by exact_mod_cast h'
        exact mul_le_mul_of_nonneg_right this hTb.le
      have := hj.2.trans_le (h1.trans hi.1)
      exact lt_irrefl _ this
    · exact hne (Nat.le_antisymm h' h)

lemma linspace0_eq {N : ℕ} (hN : 2 ≤ N) (T : ℚ) (m : ℕ) :
    linspace0 T N m = (m : ℚ) * T / ((N - 1 : ℕ) : ℚ) := by
  rw [linspace0, if_neg (by omega)]

/-- Comparison of a grid point with a window edge `w * Tb`, reduced to natural
numbers: with `Tb = 1/br` and `t m = m * (Tb*n) / (fs*n - 1)`, the inequality
`w * Tb ≤ t m` holds iff `w * (fs*n - 1) ≤ m * n`. -/
lemma le_linspace_iff {br : ℚ} (hbr : 0 < br) {n fs : ℕ} (hN : 2 ≤ fs * n)
    (w m : ℕ) :
    (w : ℚ) * (1 / br) ≤ linspace0 ((1 / br) * n) (fs * n) m ↔
      w * (fs * n - 1) ≤ m * n := by
  have hd : (0 : ℚ) < ((fs * n - 1 : ℕ) : ℚ) := by
    have : (1 : ℕ) ≤ fs * n - 1 := by omega
    exact_mod_cast Nat.lt_of_lt_of_le Nat.zero_lt_one this
  have ha : (0 : ℚ) < 1 / br := by positivity
  rw [linspace0_eq hN]
  have ht : (m : ℚ) * ((1 / br) * n) / ((fs * n - 1 : ℕ) : ℚ) =
      ((m * n : ℕ) : ℚ) / ((fs * n - 1 : ℕ) : ℚ) * (1 / br) := by
    push_cast
    ring
  rw [ht, mul_le_mul_right ha, le_div_iff₀ hd]
  constructor
  · intro h
    exact_mod_cast h
  · intro h
    exact_mod_cast h

lemma linspace_lt_iff {br : ℚ} (hbr : 0 < br) {n fs : ℕ} (hN : 2 ≤ fs * n)
    (w m : ℕ) :
    linspace0 ((1 / br) * n) (fs * n) m < (w : ℚ) * (1 / br) ↔
      m * n < w * (fs * n - 1) := by
  rw [← not_le, ← not_le, not_iff_not]
  exact le_linspace_iff hbr hN w m

/-- The window masks over the linspace grid, in natural-number form. -/
lemma inWindow_iff {br : ℚ} (hbr : 0 < br) {n fs : ℕ} (hN : 2 ≤ fs * n)
    (i m : ℕ) :
    inWindow (1 / br) (linspace0 ((1 / br) * n) (fs * n)) i m ↔
      i * (fs * n - 1) ≤ m * n ∧ m * n < (i + 1) * (fs * n - 1) := by
  have h2 := linspace_lt_iff hbr hN (i + 1) m
  rw [inWindow, le_linspace_iff hbr hN i m]
  constructor
  · rintro ⟨h1, hlt⟩
    refine ⟨h1, ?_⟩
    rw [← h2]
    convert hlt using 2
    push_cast
    ring
  · rintro ⟨h1, hlt⟩
    refine ⟨h1, ?_⟩
    have := h2.2 hlt
    convert this using 2
    push_cast
    ring

lemma nat_div_char {d i x : ℕ} (hd : 0 < d) (h1 : i * d ≤ x)
    (h2 : x < (i + 1) * d) : i = x / d := by
  refine Nat.le_antisymm ?_ ?_
  · exact (Nat.le_div_iff_mul_le hd).2 h1
  · exact Nat.lt_succ_iff.1 ((Nat.div_lt_iff_lt_mul hd).2 h2)

/-! ### Structure of the per-scheme window lists -/

lemma pair_shift (i k : ℕ) (v : ℕ → ℝ) : (i + 1 + k, v) = (i + (k + 1), v) := by
  rw [show i + 1 + k = i + (k + 1) by omega]

lemma mem_askWindows (A fc : ℝ) (t : ℕ → ℚ) (bits : List Char) (i : ℕ)
    (iv : ℕ × (ℕ → ℝ)) :
    iv ∈ askWindows A fc t bits i ↔
      ∃ k b, bits.get? k = some b ∧ iv = (i + k, askVal A fc t b) := by
  induction bits generalizing i with
  | nil => simp [askWindows]
  | cons c rest ih =>
      simp only [askWindows, List.mem_cons, ih]
      constructor
      · rintro (rfl | ⟨k, b, hk, rfl⟩)
        · exact ⟨0, c, rfl, by simp⟩
        · exact ⟨k + 1, b, hk, (pair_shift _ _ _)⟩
      · rintro ⟨k, b, hk, rfl⟩
        cases k with
        | zero =>
            left
            simp only [List.get?_cons_zero, Option.some_inj] at hk
            simp [hk]
        | succ k' =>
            right
            exact ⟨k', b, hk, (pair_shift _ _ _).symm⟩

lemma mem_bpskWindows (A fc : ℝ) (t : ℕ → ℚ) (bits : List Char) (i : ℕ)
    (iv : ℕ × (ℕ → ℝ)) :
    iv ∈ bpskWindows A fc t bits i ↔
      ∃ k b, bits.get? k = some b ∧ iv = (i + k, bpskVal A fc t b) := by
  induction bits generalizing i with
  | nil => simp [bpskWindows]
  | cons c rest ih =>
      simp only [bpskWindows, List.mem_cons, ih]
      constructor
      · rintro (rfl | ⟨k, b, hk, rfl⟩)
        · exact ⟨0, c, rfl, by simp⟩
        · exact ⟨k + 1, b, hk, (pair_shift _ _ _)⟩
      · rintro ⟨k, b, hk, rfl⟩
        cases k with
        | zero =>
            left
            simp only [List.get?_cons_zero, Option.some_inj] at hk
            simp [hk]
        | succ k' =>
            right
            exact ⟨k', b, hk, (pair_shift _ _ _).symm⟩

lemma mem_fskWindows (A f1 f2 : ℝ) (t : ℕ → ℚ) (bits : List Char) (i : ℕ)
    (iv : ℕ × (ℕ → ℝ)) :
    iv ∈ fskWindows A f1 f2 t bits i ↔
      ∃ k b, bits.get? k = some b ∧ iv = (i + k, fskVal A f1 f2 t b) := by
  induction bits generalizing i with
  | nil => simp [fskWindows]
  | cons c rest ih =>
      simp only [fskWindows, List.mem_cons, ih]
      constructor
      · rintro (rfl | ⟨k, b, hk, rfl⟩)
        · exact ⟨0, c, rfl, by simp⟩
        · exact ⟨k + 1, b, hk, (pair_shift _ _ _)⟩
      · rintro ⟨k, b, hk, rfl⟩
        cases k with
        | zero =>
            left
            simp only [List.get?_cons_zero, Option.some_inj] at hk
            simp [hk]
        | succ k' =>
            right
            exact ⟨k', b, hk, (pair_shift _ _ _).symm⟩

lemma mem_dpskWindows (A fc : ℝ) (t : ℕ → ℚ) :
    ∀ (bits : List Char) (i : ℕ) (prev : ℝ) (iv : ℕ × (ℕ → ℝ)),
      iv ∈ dpskWindows A fc t bits i prev ↔
        ∃ k ph, (dpskPhases bits prev).get? k = some ph ∧
          iv = (i + k, dpskVal A fc t ph)
  | [], i, prev, iv => by simp [dpskWindows, dpskPhases]
  | c :: rest, i, prev, iv => by
      have ih := mem_dpskWindows A fc t rest (i + 1)
        (if c = '1' then rmod (prev + π) (2 * π) else prev) iv
      simp only [dpskWindows, dpskPhases, List.mem_cons, ih]
      constructor
      · rintro (rfl | ⟨k, ph, hk, rfl⟩)
        · exact ⟨0, _, rfl, by simp⟩
        · exact ⟨k + 1, ph, hk, (pair_shift _ _ _)⟩
      · rintro ⟨k, ph, hk, rfl⟩
        cases k with
        | zero =>
            left
            simp only [List.get?_cons_zero, Option.some_inj] at hk
            simp [hk]
        | succ k' =>
            right
            exact ⟨k', ph, hk, (pair_shift _ _ _).symm⟩

lemma mem_qpskWindows (A fc : ℝ) (t : ℕ → ℚ) :
    ∀ (bits : List Char) (j : ℕ) (iv : ℕ × (ℕ → ℝ)),
      iv ∈ qpskWindows A fc t bits j ↔
        ∃ k b0 b1, bits.get? (2 * k) = some b0 ∧
          bits.get? (2 * k + 1) = some b1 ∧
          iv = (j + k, qpskVal A fc t b0 b1)
  | [], j, iv => by simp [qpskWindows]
  | [c], j, iv => by
      simp only [qpskWindows, List.not_mem_nil, false_iff]
      rintro ⟨k, b0, b1, h0, h1, _⟩
      cases k with
      | zero => simp at h1
      | succ k' =>
          rw [show 2 * (k' + 1) = (2 * k' + 1) + 1 by omega] at h0
          simp at h0
  | c0 :: c1 :: rest, j, iv => by
      have ih := mem_qpskWindows A fc t rest (j + 1) iv
      simp only [qpskWindows, List.mem_cons, ih]
      constructor
      · rintro (rfl | ⟨k, b0, b1, h0, h1, rfl⟩)
        · exact ⟨0, c0, c1, rfl, rfl, by simp⟩
        · refine ⟨k + 1, b0, b1, ?_, ?_, (pair_shift _ _ _)⟩
          · rw [show 2 * (k + 1) = (2 * k) + 1 + 1 by omega]
            simpa using h0
          · rw [show 2 * (k + 1) + 1 = (2 * k + 1) + 1 + 1 by omega]
            simpa using h1
      · rintro ⟨k, b0, b1, h0, h1, rfl⟩
        cases k with
        | zero =>
            left
            simp only [Nat.mul_zero, List.get?_cons_zero, Option.some_inj,
              Nat.zero_add, Nat.mul_zero, List.get?_cons_succ,
              List.get?_cons_zero] at h0 h1
            simp [h0, h1]
        | succ k' =>
            right
            refine ⟨k', b0, b1, ?_, ?_, (pair_shift _ _ _).symm⟩
            · rw [show 2 * (k' + 1) = (2 * k') + 1 + 1 by omega] at h0
              simpa using h0
            · rw [show 2 * (k' + 1) + 1 = (2 * k' + 1) + 1 + 1 by omega] at h1
              simpa using h1

lemma dpskPhases_length (bits : List Char) (prev : ℝ) :
    (dpskPhases bits prev).length = bits.length := by
  induction bits generalizing prev with
  | nil => rfl
  | cons c rest ih => simp [dpskPhases, ih]

/-- With `endpoint=True`, the last linspace sample is the right endpoint. -/
lemma linspace0_endpoint {N : ℕ} (hN : 2 ≤ N) (T : ℚ) :
    linspace0 T N (N - 1) = T := by
  have hd : ((N - 1 : ℕ) : ℚ) ≠ 0 := by
    have : (1 : ℕ) ≤ N - 1 := by omega
    have h0 : (0 : ℚ) < ((N - 1 : ℕ) : ℚ) := by exact_mod_cast this
    exact h0.ne'
  rw [linspace0_eq hN, mul_comm, mul_div_assoc, div_self hd, mul_one]

/-! ### Concrete inputs used by witnesses and counterexamples -/

noncomputable def gZero : ℕ → ℝ := fun _ => 0

noncomputable def gOne : ℕ → ℝ := fun _ => 1

noncomputable def pASK : Params := ⟨ModType.ASK, 1, 3, 10, 2, 25, 6⟩

noncomputable def pQPSK1 : Params := ⟨ModType.QPSK, 1, 3, 10, 4, 25, 0⟩

noncomputable def pQPSK2 : Params := ⟨ModType.QPSK, 1, 1, 10, 2, 25, 0⟩

noncomputable def pQPSK3 : Params := ⟨ModType.QPSK, 1, 3, 10, 2, 25, 0⟩

noncomputable def pDPSK : Params := ⟨ModType.DPSK, 1, 3, 10, 2, 25, 0⟩

/-! ### Claims -/

/-- C1 (counterexample): the claim says the QPSK waveform has
`samplesPerBit * effectiveBitCount` samples with `effectiveBitCount` the
padded bit count.  For the one-bit stream `"1"` with `samplesPerBit = 4`
the padded count is `2`, so the claim predicts `8` samples, but the code
sizes the grid (line 220) before padding (lines 237-238) and produces `4`. -/
theorem C1_cex :
    Option.map Output.numSamples (synthesize "1" pQPSK1 gZero) = some 4 ∧
    pQPSK1.fs * (padEven (parseBits "1")).length = 8 ∧ (4 : ℕ) ≠ 8 := by
  refine ⟨rfl, by decide, by decide⟩

/-- C1 (amended): for every valid bit stream and every scheme — QPSK
included — the waveform has `samplesPerBit * parsedBitCount` samples; QPSK
padding happens after the time grid is sized and does not change the sample
count. -/
theorem C1_waveform_length (s : String) (p : Params) (g : ℕ → ℝ)
    (hne : parseBits s ≠ []) :
    Option.map Output.numSamples (synthesize s p g) =
      some (p.fs * (parseBits s).length) := by
  simp [synthesize, hne]

/-- C1 (witness): the default stream `"10110011"` with 2 samples per bit
gives a 16-sample waveform. -/
theorem C1_witness :
    Option.map Output.numSamples (synthesize "10110011" pASK gZero) =
      some 16 := by
  rw [C1_waveform_length "10110011" pASK gZero (by decide)]
  decide

/-- C2: the constellation point sets (modelled from the spec, the mapper not
being part of `src/main.py`): 2 labeled points for ASK/BPSK/FSK/DPSK and 4
for QPSK, with exactly the claimed coordinates, for every parameter set and
independently of any bit stream (the mapper takes no bit-stream input), with
no error conditions. -/
theorem C2_constellation (br snr : ℚ) (A fc fd : ℝ) (fs : ℕ) :
    constellation ⟨ModType.ASK, br, A, fc, fs, snr, fd⟩ = [(0, 0), (A, 0)] ∧
    constellation ⟨ModType.BPSK, br, A, fc, fs, snr, fd⟩ =
      [(A, 0), (-A, 0)] ∧
    constellation ⟨ModType.QPSK, br, A, fc, fs, snr, fd⟩ =
      [(Real.cos (π / 4), Real.sin (π / 4)),
       (Real.cos (3 * π / 4), Real.sin (3 * π / 4)),
       (Real.cos (5 * π / 4), Real.sin (5 * π / 4)),
       (Real.cos (7 * π / 4), Real.sin (7 * π / 4))] ∧
    constellation ⟨ModType.FSK, br, A, fc, fs, snr, fd⟩ =
      [(fc - fd / 2, 0), (fc + fd / 2, 0)] ∧
    constellation ⟨ModType.DPSK, br, A, fc, fs, snr, fd⟩ =
      [(1, 0), (-1, 0)] ∧
    (constellation ⟨ModType.ASK, br, A, fc, fs, snr, fd⟩).length = 2 ∧
    (constellation ⟨ModType.BPSK, br, A, fc, fs, snr, fd⟩).length = 2 ∧
    (constellation ⟨ModType.QPSK, br, A, fc, fs, snr, fd⟩).length = 4 ∧
    (constellation ⟨ModType.FSK, br, A, fc, fs, snr, fd⟩).length = 2 ∧
    (constellation ⟨ModType.DPSK, br, A, fc, fs, snr, fd⟩).length = 2 := by
  refine ⟨rfl, rfl, rfl, rfl, ?_, rfl, rfl, rfl, rfl, rfl⟩
  simp [constellation, Real.cos_pi, Real.sin_pi]

/-- C3 (counterexample): the claim says no grid sample equals
`totalDuration`.  For the stream `"1"` at bit rate 1 with 2 samples per bit,
`np.linspace(0, T, 2)` (default `endpoint=True`) makes sample 1 — a valid
index, since there are 2 samples — equal to `totalDuration = Tb * 1 = 1`. -/
theorem C3_cex :
    timeGridOf pASK (parseBits "1") 1 =
      (1 / pASK.bitRate) * (parseBits "1").length ∧
    1 < pASK.fs * (parseBits "1").length := by
  have hb : parseBits "1" = ['1'] := by decide
  rw [hb]
  refine ⟨?_, by decide⟩
  norm_num [timeGridOf, linspace0, pASK]

/-- C3 (amended): the time grid has `samplesPerBit * bitCount` samples,
starts at 0, is strictly increasing and evenly spaced with step
`totalDuration / (N - 1)`, and spans the closed interval
`[0, totalDuration]`: its last sample equals `totalDuration = Tb * bitCount`
(numpy's `linspace` includes the endpoint by default). -/
theorem C3_time_grid (s : String) (p : Params) (g : ℕ → ℝ)
    (hbr : 0 < p.bitRate) (hne : parseBits s ≠ [])
    (hN : 2 ≤ p.fs * (parseBits s).length) :
    Option.map Output.numSamples (synthesize s p g) =
      some (p.fs * (parseBits s).length) ∧
    timeGridOf p (parseBits s) 0 = 0 ∧
    (∀ m, m + 1 < p.fs * (parseBits s).length →
      timeGridOf p (parseBits s) m < timeGridOf p (parseBits s) (m + 1)) ∧
    (∀ m, timeGridOf p (parseBits s) (m + 1) - timeGridOf p (parseBits s) m =
      (1 / p.bitRate) * (parseBits s).length /
        ((p.fs * (parseBits s).length - 1 : ℕ) : ℚ)) ∧
    (∀ m, m < p.fs * (parseBits s).length →
      0 ≤ timeGridOf p (parseBits s) m ∧
      timeGridOf p (parseBits s) m ≤ (1 / p.bitRate) * (parseBits s).length) ∧
    timeGridOf p (parseBits s) (p.fs * (parseBits s).length - 1) =
      (1 / p.bitRate) * (parseBits s).length := by
  have hn : 0 < (parseBits s).length := List.length_pos.2 hne
  have hd : (0 : ℚ) < ((p.fs * (parseBits s).length - 1 : ℕ) : ℚ) := by
    have : (1 : ℕ) ≤ p.fs * (parseBits s).length - 1 := by omega
    exact_mod_cast Nat.lt_of_lt_of_le Nat.zero_lt_one this
  have hT : (0 : ℚ) < (1 / p.bitRate) * (parseBits s).length := by
    have h1 : (0 : ℚ) < 1 / p.bitRate := by positivity
    have h2 : (0 : ℚ) < ((parseBits s).length : ℚ) := by exact_mod_cast hn
    positivity
  have heq : ∀ m : ℕ, timeGridOf p (parseBits s) m =
      (m : ℚ) * ((1 / p.bitRate) * (parseBits s).length) /
        ((p.fs * (parseBits s).length - 1 : ℕ) : ℚ) := fun m =>
    linspace0_eq hN _ m
  have hstep : ∀ m : ℕ,
      timeGridOf p (parseBits s) (m + 1) - timeGridOf p (parseBits s) m =
        (1 / p.bitRate) * (parseBits s).length /
          ((p.fs * (parseBits s).length - 1 : ℕ) : ℚ) := by
    intro m
    rw [heq, heq, div_sub_div_same]
    congr 1
    push_cast
    ring
  refine ⟨by simp [synthesize, hne], by simp [heq], ?_, hstep, ?_, ?_⟩
  · intro m _
    have h := hstep m
    have hpos : (0 : ℚ) < (1 / p.bitRate) * (parseBits s).length /
        ((p.fs * (parseBits s).length - 1 : ℕ) : ℚ) := by positivity
    linarith
  · intro m hm
    constructor
    · rw [heq]
      positivity
    · rw [heq, div_le_iff₀ hd]
      have hm' : (m : ℚ) ≤ ((p.fs * (parseBits s).length - 1 : ℕ) : ℚ) := by
        exact_mod_cast Nat.le_sub_one_of_lt hm
      nlinarith
  · exact linspace0_endpoint hN _

lemma timeGridOf_def (p : Params) (bits : List Char) :
    timeGridOf p bits =
      linspace0 ((1 / p.bitRate) * bits.length) (p.fs * bits.length) := rfl

/-- C4 (counterexample): the claim says every sample index is assigned by
exactly one window.  For the stream `"1"` at bit rate 1 with 2 samples per
bit there is a single window `[0, Tb)`, and sample index 1 — a valid index —
has timestamp `Tb` (the linspace endpoint) and lies in no window, so it is
never assigned. -/
theorem C4_cex :
    (parseBits "1").length = 1 ∧ 1 < pASK.fs * (parseBits "1").length ∧
    ¬ inWindow (1 / pASK.bitRate) (timeGridOf pASK (parseBits "1")) 0 1 := by
  have hb : parseBits "1" = ['1'] := by decide
  rw [hb]
  refine ⟨rfl, by decide, ?_⟩
  rw [timeGridOf_def]
  norm_num [inWindow, linspace0, pASK]

/-- C4 (amended): the right-open windows `[k*Tb, (k+1)*Tb)` are pairwise
disjoint (no sample is written twice), and every sample except the final one
lies in exactly one of the per-bit windows; the final sample, whose
timestamp is `totalDuration` itself, lies outside every window and is never
assigned (it keeps its `np.zeros_like` value).  More generally no window
with index below `w` catches a sample with timestamp `≥ w*Tb` (whence the
QPSK behaviour of claim C5). -/
theorem C4_windows (s : String) (p : Params) (hbr : 0 < p.bitRate)
    (hne : parseBits s ≠ []) (hN : 2 ≤ p.fs * (parseBits s).length) :
    (∀ i j m, inWindow (1 / p.bitRate) (timeGridOf p (parseBits s)) i m →
      inWindow (1 / p.bitRate) (timeGridOf p (parseBits s)) j m → i = j) ∧
    (∀ m, m + 1 < p.fs * (parseBits s).length → ∃ i,
      i < (parseBits s).length ∧
      inWindow (1 / p.bitRate) (timeGridOf p (parseBits s)) i m) ∧
    (∀ i, i < (parseBits s).length →
      ¬ inWindow (1 / p.bitRate) (timeGridOf p (parseBits s)) i
        (p.fs * (parseBits s).length - 1)) ∧
    (∀ (w m : ℕ), (w : ℚ) * (1 / p.bitRate) ≤ timeGridOf p (parseBits s) m →
      ∀ i, i < w →
        ¬ inWindow (1 / p.bitRate) (timeGridOf p (parseBits s)) i m) := by
  have hTb : (0 : ℚ) < 1 / p.bitRate := by positivity
  have hn : 0 < (parseBits s).length := List.length_pos.2 hne
  have hd : 0 < p.fs * (parseBits s).length - 1 := by omega
  have hbeyond : ∀ (w m : ℕ),
      (w : ℚ) * (1 / p.bitRate) ≤ timeGridOf p (parseBits s) m →
      ∀ i, i < w →
        ¬ inWindow (1 / p.bitRate) (timeGridOf p (parseBits s)) i m := by
    intro w m hwm i hiw hW
    have hcast : ((i : ℚ) + 1) ≤ (w : ℚ) := by
      have h' : (i + 1 : ℕ) ≤ w := hiw
      exact_mod_cast h'
    have h1 : ((i : ℚ) + 1) * (1 / p.bitRate) ≤
        (w : ℚ) * (1 / p.bitRate) :=
      mul_le_mul_of_nonneg_right hcast hTb.le
    exact absurd (hW.2.trans_le (h1.trans hwm)) (lt_irrefl _)
  refine ⟨fun i j m hi hj => inWindow_disjoint hTb hi hj, ?_, ?_, hbeyond⟩
  · intro m hm
    refine ⟨m * (parseBits s).length /
      (p.fs * (parseBits s).length - 1), ?_, ?_⟩
    · rw [Nat.div_lt_iff_lt_mul hd]
      have hmd : m < p.fs * (parseBits s).length - 1 := by omega
      calc m * (parseBits s).length
          < (p.fs * (parseBits s).length - 1) * (parseBits s).length :=
            (Nat.mul_lt_mul_right hn).2 hmd
        _ = (parseBits s).length * (p.fs * (parseBits s).length - 1) :=
            Nat.mul_comm _ _
    · rw [timeGridOf_def]
      refine (inWindow_iff hbr hN _ m).2 ⟨Nat.div_mul_le_self _ _, ?_⟩
      exact (Nat.div_lt_iff_lt_mul hd).1 (Nat.lt_succ_self _)
  · intro i hi
    refine hbeyond (parseBits s).length _ ?_ i hi
    rw [timeGridOf_def, linspace0_endpoint hN, mul_comm]

/-- C4 (witness): for the stream `"10"` the final grid sample (index 3,
timestamp `totalDuration`) lies outside window 0. -/
theorem C4_witness :
    ¬ inWindow (1 / pASK.bitRate) (timeGridOf pASK (parseBits "10")) 0
      (pASK.fs * (parseBits "10").length - 1) :=
  (C4_windows "10" pASK (by norm_num [pASK]) (by decide)
    (by decide)).2.2.1 0 (by decide)

/-- C5: for QPSK the modulator only writes inside the pair windows, which
end at `p*Tb` with `p = ceil(n/2) = (padded length)/2` pairs; every
transmitted sample with timestamp at or beyond `p*Tb` keeps its initial
value 0, even though the grid extends to `n*Tb`. -/
theorem C5_qpsk_tail (s : String) (p : Params)
    (hq : p.modType = ModType.QPSK) (hbr : 0 < p.bitRate) :
    (padEven (parseBits s)).length / 2 = ((parseBits s).length + 1) / 2 ∧
    ∀ m, (((padEven (parseBits s)).length / 2 : ℕ) : ℚ) * (1 / p.bitRate) ≤
        timeGridOf p (parseBits s) m →
      modulate p (parseBits s) m = 0 := by
  constructor
  · rw [padEven]
    split
    · simp only [List.length_append, List.length_cons, List.length_nil]
    · omega
  · intro m hm
    obtain ⟨mt, br, A, fc, fs, snr, fd⟩ := p
    dsimp only at hq hbr hm ⊢
    subst hq
    have hTb : (0 : ℚ) < 1 / br := by positivity
    simp only [modulate]
    apply writeWindows_not_mem
    intro iv hiv
    rw [mem_qpskWindows] at hiv
    obtain ⟨k, b0, b1, h0, h1, rfl⟩ := hiv
    obtain ⟨hlt, -⟩ := List.get?_eq_some.mp h1
    have hkP : k + 1 ≤
        (padEven (parseBits s)).length / 2 := by
      rw [Nat.le_div_iff_mul_le (by norm_num : 0 < 2)]
      omega
    intro hW
    have hcast : ((0 + k : ℕ) : ℚ) + 1 ≤
        (((padEven (parseBits s)).length / 2 : ℕ) : ℚ) := by
      have h' : ((k + 1 : ℕ) : ℚ) ≤
          (((padEven (parseBits s)).length / 2 : ℕ) : ℚ) := by
        exact_mod_cast hkP
      push_cast
      push_cast at h'
      linarith
    have h1' : (((0 + k : ℕ) : ℚ) + 1) * (1 / br) ≤
        (((padEven (parseBits s)).length / 2 : ℕ) : ℚ) * (1 / br) :=
      mul_le_mul_of_nonneg_right hcast hTb.le
    exact absurd (hW.2.trans_le (h1'.trans hm)) (lt_irrefl _)

/-- C5 (witness): QPSK on the single bit `"1"` (padded to `"10"`, one pair
window `[0, Tb)`) leaves sample 1 — timestamp `Tb`, the second half of the
grid — at exactly 0. -/
theorem C5_witness : modulate pQPSK3 (parseBits "1") 1 = 0 := by
  refine (C5_qpsk_tail "1" pQPSK3 rfl (by norm_num [pQPSK3])).2 1 ?_
  have hb : parseBits "1" = ['1'] := by decide
  rw [hb, timeGridOf_def]
  norm_num [padEven, linspace0, pQPSK3]

/-- C3 (witness): the stream `"1"` at bit rate 1 with 2 samples per bit has
the 2-sample grid `[0, 1]`. -/
theorem C3_witness :
    Option.map Output.numSamples (synthesize "1" pASK gZero) = some 2 ∧
    timeGridOf pASK (parseBits "1") 0 = 0 ∧
    timeGridOf pASK (parseBits "1") (2 - 1) =
      (1 / pASK.bitRate) * (parseBits "1").length := by
  have h := C3_time_grid "1" pASK gZero (by norm_num [pASK]) (by decide)
    (by decide)
  refine ⟨?_, h.2.1, ?_⟩
  · rw [h.1]
    decide
  · have := h.2.2.2.2.2
    simpa using this

/-- C6: DPSK carries phase sequentially across windows starting from 0: a
`'1'` bit adds `pi` (mod `2*pi`) to the running phase before its window is
emitted, a `'0'` leaves it unchanged, and window `k`'s samples are
`A*sin(2*pi*fc*t + phase_k)`; in particular `(0+pi) % (2*pi) = pi`,
`(pi+pi) % (2*pi) = 0`, and the bit sequence `"101"` yields the per-window
phase sequence `[pi, pi, 0]`. -/
theorem C6_dpsk (s : String) (p : Params) (k m : ℕ) (ph : ℝ)
    (hD : p.modType = ModType.DPSK) (hbr : 0 < p.bitRate)
    (hph : (dpskPhases (parseBits s) 0).get? k = some ph)
    (hm : inWindow (1 / p.bitRate) (timeGridOf p (parseBits s)) k m) :
    modulate p (parseBits s) m =
      p.A * Real.sin (2 * π * p.fc *
        ((timeGridOf p (parseBits s) m : ℚ) : ℝ) + ph) ∧
    rmod (0 + π) (2 * π) = π ∧
    rmod (π + π) (2 * π) = 0 ∧
    dpskPhases ['1', '0', '1'] 0 = [π, π, 0] ∧
    parseBits "101" = ['1', '0', '1'] := by
  have h2pi : (0 : ℝ) < 2 * π := by positivity
  have e1 : rmod π (2 * π) = π := by
    have hq : π / (2 * π) = 1 / 2 := by
      rw [div_eq_div_iff h2pi.ne' two_ne_zero]
      ring
    have hfloor : ⌊(1 : ℝ) / 2⌋ = 0 := by norm_num
    rw [rmod, hq, hfloor]
    push_cast
    ring
  have e1' : rmod (0 + π) (2 * π) = π := by
    rw [zero_add]
    exact e1
  have e2 : rmod (π + π) (2 * π) = 0 := by
    have hq : (π + π) / (2 * π) = 1 := by
      rw [div_eq_one_iff_eq h2pi.ne']
      ring
    have hfloor : ⌊(1 : ℝ)⌋ = (1 : ℤ) := Int.floor_one
    rw [rmod, hq, hfloor]
    push_cast
    ring
  have e3 : dpskPhases ['1', '0', '1'] 0 = [π, π, 0] := by
    simp [dpskPhases, e1, e2]
  refine ⟨?_, e1', e2, e3, by decide⟩
  obtain ⟨mt, br, A, fc, fs, snr, fd⟩ := p
  dsimp only at hD hbr hph hm ⊢
  subst hD
  have hTb : (0 : ℚ) < 1 / br := by positivity
  simp only [modulate]
  refine writeWindows_eq_val _ _ _ _ _ ?_ ?_
  · intro iv hiv hmask
    rw [mem_dpskWindows] at hiv
    obtain ⟨k', ph', hph', rfl⟩ := hiv
    dsimp only at hmask
    have hk' : 0 + k' = k := inWindow_disjoint hTb hmask hm
    rw [Nat.zero_add] at hk'
    subst hk'
    rw [hph] at hph'
    rw [Option.some_inj.1 hph']
    rfl
  · refine ⟨(k, dpskVal A fc
      (timeGridOf ⟨ModType.DPSK, br, A, fc, fs, snr, fd⟩ (parseBits s)) ph),
      ?_, hm⟩
    rw [mem_dpskWindows]
    exact ⟨k, ph, hph, by rw [Nat.zero_add]⟩

/-- C6 (witness): for the stream `"101"` the first DPSK window (sample 0)
carries phase `(0+pi) % (2*pi)`, i.e. `pi`. -/
theorem C6_witness :
    modulate pDPSK (parseBits "101") 0 =
      pDPSK.A * Real.sin (2 * π * pDPSK.fc *
        ((timeGridOf pDPSK (parseBits "101") 0 : ℚ) : ℝ) +
          rmod (0 + π) (2 * π)) := by
  refine (C6_dpsk "101" pDPSK 0 0 (rmod (0 + π) (2 * π)) rfl
    (by norm_num [pDPSK]) rfl ?_).1
  have hb : parseBits "101" = ['1', '0', '1'] := by decide
  rw [hb, timeGridOf_def]
  norm_num [inWindow, linspace0, pDPSK]

/-- C7: QPSK maps each 2-bit symbol of the padded stream to a phase by the
literal table `00 -> pi/4, 01 -> 3*pi/4, 11 -> 5*pi/4, 10 -> 7*pi/4` and
emits `A*sin(2*pi*fc*t + phase)` throughout the pair's window. -/
theorem C7_qpsk (s : String) (p : Params) (k m : ℕ) (b0 b1 : Char)
    (hQ : p.modType = ModType.QPSK) (hbr : 0 < p.bitRate)
    (h0 : (padEven (parseBits s)).get? (2 * k) = some b0)
    (h1 : (padEven (parseBits s)).get? (2 * k + 1) = some b1)
    (hm : inWindow (1 / p.bitRate) (timeGridOf p (parseBits s)) k m) :
    modulate p (parseBits s) m =
      p.A * Real.sin (2 * π * p.fc *
        ((timeGridOf p (parseBits s) m : ℚ) : ℝ) + qpskPhase b0 b1) ∧
    qpskPhase '0' '0' = π / 4 ∧ qpskPhase '0' '1' = 3 * π / 4 ∧
    qpskPhase '1' '1' = 5 * π / 4 ∧ qpskPhase '1' '0' = 7 * π / 4 := by
  refine ⟨?_, by simp [qpskPhase], by simp [qpskPhase], by simp [qpskPhase],
    by simp [qpskPhase]⟩
  obtain ⟨mt, br, A, fc, fs, snr, fd⟩ := p
  dsimp only at hQ hbr h0 h1 hm ⊢
  subst hQ
  have hTb : (0 : ℚ) < 1 / br := by positivity
  simp only [modulate]
  refine writeWindows_eq_val _ _ _ _ _ ?_ ?_
  · intro iv hiv hmask
    rw [mem_qpskWindows] at hiv
    obtain ⟨k', b0', b1', h0', h1', rfl⟩ := hiv
    dsimp only at hmask
    have hk' : 0 + k' = k := inWindow_disjoint hTb hmask hm
    rw [Nat.zero_add] at hk'
    subst hk'
    rw [h0] at h0'
    rw [h1] at h1'
    rw [Option.some_inj.1 h0', Option.some_inj.1 h1']
    rfl
  · refine ⟨(k, qpskVal A fc
      (timeGridOf ⟨ModType.QPSK, br, A, fc, fs, snr, fd⟩ (parseBits s))
      b0 b1), ?_, hm⟩
    rw [mem_qpskWindows]
    exact ⟨k, b0, b1, h0, h1, by rw [Nat.zero_add]⟩

/-- C7 (witness): input bits `"00"` with amplitude 1 yield the transmitted
sample `sin(pi/4)` at time 0. -/
theorem C7_witness : modulate pQPSK2 (parseBits "00") 0 = Real.sin (π / 4) := by
  have hb : parseBits "00" = ['0', '0'] := by decide
  have h := (C7_qpsk "00" pQPSK2 0 0 '0' '0' rfl (by norm_num [pQPSK2])
    (by decide) (by decide) ?_).1
  · rw [h]
    have ht : timeGridOf pQPSK2 (parseBits "00") 0 = 0 := by
      rw [hb, timeGridOf_def]
      norm_num [linspace0, pQPSK2]
    rw [ht]
    norm_num [qpskPhase, pQPSK2]
  · rw [hb, timeGridOf_def]
    norm_num [inWindow, linspace0, pQPSK2]

/-- C8: the received waveform is the transmitted one plus per-sample
Gaussian noise of power `mean(signal^2) / 10^(snrDb/10)`; when every parsed
bit of an ASK stream is `'0'` the transmitted waveform is identically zero,
so the signal power is 0, the noise power is 0, and the received waveform
equals the transmitted one exactly — for every `snrDb` and every sequence of
noise draws, with no error raised. -/
theorem C8_zero_power (s : String) (p : Params) (g : ℕ → ℝ)
    (hA : p.modType = ModType.ASK) (h0 : ∀ c ∈ parseBits s, c = '0') :
    (∀ m, modulate p (parseBits s) m = 0) ∧
    sigPower (p.fs * (parseBits s).length) (modulate p (parseBits s)) = 0 ∧
    (∀ m, rxOf p (parseBits s) g m = modulate p (parseBits s) m) := by
  have htx : ∀ m, modulate p (parseBits s) m = 0 := by
    intro m
    obtain ⟨mt, br, A, fc, fs, snr, fd⟩ := p
    dsimp only at hA ⊢
    subst hA
    simp only [modulate]
    apply writeWindows_zero
    intro iv hiv hmask
    rw [mem_askWindows] at hiv
    obtain ⟨k, b, hk, rfl⟩ := hiv
    have hb : b = '0' := h0 b (List.get?_mem hk)
    simp [askVal, hb]
  have hsp : sigPower (p.fs * (parseBits s).length)
      (modulate p (parseBits s)) = 0 := by
    rw [sigPower]
    have hz : ∀ m ∈ Finset.range (p.fs * (parseBits s).length),
        modulate p (parseBits s) m ^ 2 = 0 := by
      intro m _
      rw [htx m]
      ring
    rw [Finset.sum_congr rfl hz, Finset.sum_const_zero, zero_div]
  refine ⟨htx, hsp, ?_⟩
  intro m
  show modulate p (parseBits s) m + _ * g m = modulate p (parseBits s) m
  rw [hsp, noisePower, zero_div, Real.sqrt_zero, zero_mul, add_zero]

/-- C8 (witness): the all-zero ASK stream `"0000"` gives a received sample
equal to the transmitted one (itself 0) even with a nonzero noise draw. -/
theorem C8_witness :
    rxOf pASK (parseBits "0000") gOne 0 = modulate pASK (parseBits "0000") 0 ∧
    modulate pASK (parseBits "0000") 0 = 0 :=
  ⟨(C8_zero_power "0000" pASK gOne rfl (by decide)).2.2 0,
   (C8_zero_power "0000" pASK gOne rfl (by decide)).1 0⟩

/-- C9: the bit parser keeps exactly the `'0'`/`'1'` characters of the input
string, in order (a sublist of the input with the same per-character counts
of binary digits); synthesis fails (returns nothing, producing no waveform)
iff the input contains no binary digit, and succeeds with no further checks
otherwise. -/
theorem C9_bit_filtering (s : String) (p : Params) (g : ℕ → ℝ) :
    (parseBits s).Sublist s.toList ∧
    (∀ c ∈ parseBits s, c = '0' ∨ c = '1') ∧
    (∀ c, (c = '0' ∨ c = '1') → (parseBits s).count c = s.toList.count c) ∧
    (synthesize s p g = none ↔ ∀ c ∈ s.toList, ¬(c = '0' ∨ c = '1')) := by
  have hiff : parseBits s = [] ↔ ∀ c ∈ s.toList, ¬(c = '0' ∨ c = '1') := by
    rw [parseBits, List.filter_eq_nil_iff]
    refine ⟨fun h c hc hor => h c hc ?_, fun h c hc hb => h c hc ?_⟩
    · rcases hor with rfl | rfl <;> simp
    · simpa using hb
  refine ⟨List.filter_sublist _, ?_, ?_, ?_⟩
  · intro c hc
    have hb := (List.mem_filter.1 hc).2
    simpa using hb
  · intro c hor
    rw [parseBits]
    refine List.count_filter ?_
    rcases hor with rfl | rfl <;> simp
  · constructor
    · intro hnone
      by_cases hb : parseBits s = []
      · exact hiff.1 hb
      · simp [synthesize, hb] at hnone
    · intro hr
      simp [synthesize, hiff.2 hr]

/-- C9 (witness): the inputs `"abcxyz"` and `""`, which contain no binary
digit, both abort synthesis with the validation error. -/
theorem C9_witness :
    synthesize "abcxyz" pASK gZero = none ∧
    synthesize "" pASK gZero = none :=
  ⟨(C9_bit_filtering "abcxyz" pASK gZero).2.2.2.mpr (by decide),
   (C9_bit_filtering "" pASK gZero).2.2.2.mpr (by decide)⟩

/-- C10: randomness enters the pipeline only through the noise draws: with
identical bit-stream string, identical parameters and the same draw sequence
(the sequence a fixed seed produces) the two runs agree exactly — and the
time grid, sample count and transmitted waveform do not depend on the draws
at all. -/
theorem C10_determinism (s1 s2 : String) (p1 p2 : Params) (g1 g2 : ℕ → ℝ)
    (hs : s1 = s2) (hp : p1 = p2) (hg : g1 = g2) :
    synthesize s1 p1 g1 = synthesize s2 p2 g2 ∧
    (∀ g g' : ℕ → ℝ, Option.map Output.tx (synthesize s1 p1 g) =
      Option.map Output.tx (synthesize s1 p1 g')) ∧
    (∀ g g' : ℕ → ℝ, Option.map Output.timeGrid (synthesize s1 p1 g) =
      Option.map Output.timeGrid (synthesize s1 p1 g')) ∧
    (∀ g g' : ℕ → ℝ, Option.map Output.numSamples (synthesize s1 p1 g) =
      Option.map Output.numSamples (synthesize s1 p1 g')) := by
  subst hs
  subst hp
  subst hg
  refine ⟨rfl, ?_, ?_, ?_⟩ <;>
    (intro g g'
     by_cases hb : parseBits s1 = [] <;> simp [synthesize, hb])

/-- C10 (witness): two runs on the default stream with the same parameters
and the same draw sequence coincide. -/
theorem C10_witness :
    synthesize "10110011" pDPSK gOne = synthesize "10110011" pDPSK gOne :=
  (C10_determinism "10110011" "10110011" pDPSK pDPSK gOne gOne
    rfl rfl rfl).1

end Dct
